import Mathlib

/-!
Verification development for the SaaS KPI synthetic-data generators
(customers, subscription periods, lifecycle events, invoices, payments).

The Python sources are shallowly embedded:
  * calendar dates become a `Date` structure holding an absolute month index
    (months since January 2020) and a 1-based day of month; `addMonths`
    mirrors `pandas.DateOffset(months=k)` (day clamped to the target month),
    `predD`/`succD`/`addDays` mirror `pandas.Timedelta(days=...)` arithmetic,
    and timestamp comparison becomes comparison of `toDays`;
  * money amounts become exact rationals, with Python's `round(x, 2)`
    embedded as `round2` (round half to even at two decimals);
  * every `rng.*` draw becomes an explicit parameter, constrained by the
    same bounds the generator passes to the random source, so each stage is
    a pure function of (draws, upstream rows, configuration, today).
-/

namespace SaaSKPI

/-! ### Rounding of money amounts (Python `round(x, 2)`) -/

/-- Round a rational to the nearest integer, ties to even — the rounding
Python's builtin `round` applies. -/
def roundHalfEven (x : ℚ) : ℤ :=
  if x - Int.floor x < 1/2 then Int.floor x
  else if 1/2 < x - Int.floor x then Int.floor x + 1
  else if Int.floor x % 2 = 0 then Int.floor x else Int.floor x + 1

/-- Python's `round(x, 2)`: round to two decimal places, half to even. -/
def round2 (x : ℚ) : ℚ := (roundHalfEven (x * 100) : ℚ) / 100

/-- An amount that is a whole number of cents. -/
def IsCents (x : ℚ) : Prop := ∃ n : ℤ, x = (n : ℚ) / 100

/-! ### Calendar (proleptic Gregorian, as used by pandas timestamps) -/

def isLeap (y : ℕ) : Bool := (y % 4 == 0 && y % 100 != 0) || (y % 400 == 0)

/-- Number of days of month `m` (1-based) in year `y`. -/
def daysInMonthYM (y m : ℕ) : ℕ :=
  if m = 2 then (if isLeap y then 29 else 28)
  else if m = 4 ∨ m = 6 ∨ m = 9 ∨ m = 11 then 30
  else 31

/-- Length of the month with absolute index `am` (months since 2020-01). -/
def amLen (am : ℕ) : ℕ := daysInMonthYM (2020 + am / 12) (am % 12 + 1)

/-- A calendar date: absolute month index since January 2020 plus a
1-based day of month. -/
structure Date where
  am : ℕ
  d : ℕ
deriving DecidableEq

/-- A structurally valid date: the day exists in its month. -/
def Date.Valid (dt : Date) : Prop := 1 ≤ dt.d ∧ dt.d ≤ amLen dt.am

instance (dt : Date) : Decidable dt.Valid := by
  unfold Date.Valid; exact inferInstance

/-- Days elapsed from 2020-01-01 to the first day of month `am`. -/
def monthStartDays : ℕ → ℕ
  | 0 => 0
  | n + 1 => monthStartDays n + amLen n

/-- Day number of a date (days since 2020-01-01). -/
def toDays (dt : Date) : ℕ := monthStartDays dt.am + (dt.d - 1)

/-- `pandas.DateOffset(months := k)`: advance by `k` months, clamping the
day to the length of the target month. -/
def addMonths (dt : Date) (k : ℕ) : Date :=
  ⟨dt.am + k, min dt.d (amLen (dt.am + k))⟩

/-- The next calendar day. -/
def succD (dt : Date) : Date :=
  if dt.d < amLen dt.am then ⟨dt.am, dt.d + 1⟩ else ⟨dt.am + 1, 1⟩

/-- `pandas.Timedelta(days := n)` added to a date. -/
def addDays (dt : Date) : ℕ → Date
  | 0 => dt
  | n + 1 => succD (addDays dt n)

/-- The previous calendar day (`- pd.Timedelta(days=1)`). -/
def predD (dt : Date) : Date :=
  if 2 ≤ dt.d then ⟨dt.am, dt.d - 1⟩ else ⟨dt.am - 1, amLen (dt.am - 1)⟩

/-- Timestamp `min` of two dates. -/
def dmin (a b : Date) : Date := if toDays a ≤ toDays b then a else b

/-- Timestamp `max` of two dates. -/
def dmax (a b : Date) : Date := if toDays a ≤ toDays b then b else a

/-! ### Stage 1 — customer generator (`01_customers.py`)

`_choice_with_mix` normalizes the weight vector by its sum and hands it to
`rng.choice(labels, p=probs)`.  numpy accepts `p` only when every entry is
nonnegative and the entries sum to 1 (otherwise `rng.choice` raises
`ValueError`); the raised error is modelled as `none`, and an accepted draw
as `some label`, with the random index abstracted as `pick % labels.length`.
Note that in Lean division by zero yields 0, so a zero-sum mix normalizes to
an all-zero vector, which numpy's validation likewise rejects. -/

/-- Embedding of `_choice_with_mix`. -/
def choice_with_mix (labels : List String) (ws : List ℚ) (pick : ℕ) : Option String :=
  let probs := ws.map (fun w => w / ws.sum)
  if (∀ p ∈ probs, 0 ≤ p) ∧ probs.sum = 1 then labels.get? (pick % labels.length)
  else none

/-! ### Stage 2 — subscription period allocator (`02_subscriptions.py`) -/

/-- Tuning knobs of `SubsConfig` used by `_gen_periods_for_customer`, with
the source defaults. -/
structure SubsCfg where
  pct_reactivate : ℚ := 1/5
  min_months : ℕ := 3
  max_months : ℕ := 18
  start_delay_days_min : ℕ := 0
  start_delay_days_max : ℕ := 10
  reactivation_gap_min : ℕ := 15
  reactivation_gap_max : ℕ := 60
  price_noise_pct : ℚ := 0

/-- The random draws `_gen_periods_for_customer` consumes, in draw order:
start delay, first period length, plan / base price / noise fraction,
the `still_active` uniform, the reactivation uniform, the gap, and the
second period's length / plan / price / noise / `still_active` uniform. -/
structure SubsDraws where
  delay1 : ℕ
  months1 : ℕ
  plan1 : String
  base1 : ℚ
  noise1 : ℚ
  act1 : ℚ
  react : ℚ
  gap : ℕ
  months2 : ℕ
  plan2 : String
  base2 : ℚ
  noise2 : ℚ
  act2 : ℚ

/-- The draws lie in the ranges the generator passes to the random source
(`rng.integers(lo, hi + 1)` and `rng.random()`). -/
def DrawsOK (cfg : SubsCfg) (dr : SubsDraws) : Prop :=
  cfg.start_delay_days_min ≤ dr.delay1 ∧ dr.delay1 ≤ cfg.start_delay_days_max ∧
  cfg.min_months ≤ dr.months1 ∧ dr.months1 ≤ cfg.max_months ∧
  cfg.min_months ≤ dr.months2 ∧ dr.months2 ≤ cfg.max_months ∧
  cfg.reactivation_gap_min ≤ dr.gap ∧ dr.gap ≤ cfg.reactivation_gap_max ∧
  0 ≤ dr.act1 ∧ dr.act1 < 1 ∧ 0 ≤ dr.act2 ∧ dr.act2 < 1 ∧
  0 ≤ dr.react ∧ dr.react < 1

instance (cfg : SubsCfg) (dr : SubsDraws) : Decidable (DrawsOK cfg dr) := by
  unfold DrawsOK; exact inferInstance

/-- Embedding of `_sample_price_mrr`: `round(max(5.0, base + base*noise), 2)`
where `base` is the uniform draw in the plan's price band and `noise` the
uniform draw in `[-price_noise_pct, price_noise_pct]`. -/
def sample_price_mrr (base noiseFrac : ℚ) : ℚ :=
  round2 (max 5 (base + base * noiseFrac))

/-- One row of the `subscriptions` sheet. -/
structure PeriodRow where
  cid : String
  start_date : Date
  end_date : Option Date
  plan : String
  price_mrr : ℚ
  status : String
deriving DecidableEq

/-- First period start: signup date plus provisioning delay. -/
def sub_start1 (signup : Date) (dr : SubsDraws) : Date := addDays signup dr.delay1

/-- First period computed end: `start_1 + DateOffset(months=months_1) - 1 day`. -/
def sub_end1 (signup : Date) (dr : SubsDraws) : Date :=
  predD (addMonths (sub_start1 signup dr) dr.months1)

/-- Second period start: first period end plus reactivation gap. -/
def sub_start2 (signup : Date) (dr : SubsDraws) : Date :=
  addDays (sub_end1 signup dr) dr.gap

/-- Second period computed end. -/
def sub_end2 (signup : Date) (dr : SubsDraws) : Date :=
  predD (addMonths (sub_start2 signup dr) dr.months2)

/-- Embedding of `_gen_periods_for_customer`: at most two periods per
customer; `still_active = rng.random() < bias and end > today`
(bias 0.55 for the first period, 0.65 for the reactivation period);
a second period is generated only when the first one canceled and the
reactivation uniform clears `pct_reactivate`. -/
def gen_periods_for_customer (cfg : SubsCfg) (cid : String) (signup : Date)
    (dr : SubsDraws) (today : Date) : List PeriodRow :=
  let end1 := sub_end1 signup dr
  let first : PeriodRow :=
    { cid := cid
      start_date := sub_start1 signup dr
      end_date := if dr.act1 < 55/100 ∧ toDays today < toDays end1 then none else some end1
      plan := dr.plan1
      price_mrr := sample_price_mrr dr.base1 dr.noise1
      status := if dr.act1 < 55/100 ∧ toDays today < toDays end1 then "active" else "canceled" }
  if ¬(dr.act1 < 55/100 ∧ toDays today < toDays end1) ∧ dr.react < cfg.pct_reactivate then
    let end2 := sub_end2 signup dr
    [first,
     { cid := cid
       start_date := sub_start2 signup dr
       end_date := if dr.act2 < 65/100 ∧ toDays today < toDays end2 then none else some end2
       plan := dr.plan2
       price_mrr := sample_price_mrr dr.base2 dr.noise2
       status := if dr.act2 < 65/100 ∧ toDays today < toDays end2 then "active" else "canceled" }]
  else [first]

/-! ### Stage 3 — lifecycle event deriver (`data_generator/03_events.py`) -/

/-- One row of the `events` sheet. -/
structure EventRow where
  cid : String
  event_date : Date
  event_type : String
  plan_from : Option String
  plan_to : Option String
  delta_mrr : ℚ
deriving DecidableEq

/-- Embedding of `_append_event` (the emitted row; `delta_mrr` is rounded
to cents exactly as `round(float(delta), 2)` does). -/
def append_event (cid : String) (dt : Date) (etype : String)
    (pf pt : Option String) (delta : ℚ) : EventRow :=
  { cid := cid, event_date := dt, event_type := etype,
    plan_from := pf, plan_to := pt, delta_mrr := round2 delta }

/-- Upgrade/downgrade emission for a continuous-coverage transition:
positive price delta emits `upgrade`, negative emits `downgrade`, equal
prices emit nothing. -/
def updown_events (prev cur : PeriodRow) : List EventRow :=
  let delta := cur.price_mrr - prev.price_mrr
  if 0 < delta then
    [append_event cur.cid cur.start_date "upgrade" (some prev.plan) (some cur.plan) delta]
  else if delta < 0 then
    [append_event cur.cid cur.start_date "downgrade" (some prev.plan) (some cur.plan) delta]
  else []

/-- The `for i in range(1, len(s))` loop body of `_build_events_for_customer`:
reactivation when the previous period ended strictly before the current
start, otherwise upgrade/downgrade; then a churn event if the current
period ends. -/
def subsequent_events : PeriodRow → List PeriodRow → List EventRow
  | _, [] => []
  | prev, cur :: rest =>
    (match prev.end_date with
     | some pe =>
       if toDays pe < toDays cur.start_date then
         [append_event cur.cid cur.start_date "reactivation" none (some cur.plan) cur.price_mrr]
       else updown_events prev cur
     | none => updown_events prev cur)
    ++ (match cur.end_date with
        | some ce => [append_event cur.cid ce "churn" (some cur.plan) none (-cur.price_mrr)]
        | none => [])
    ++ subsequent_events cur rest

/-- Insertion of a period into a start-date-sorted list. -/
def insertByStart (p : PeriodRow) : List PeriodRow → List PeriodRow
  | [] => [p]
  | q :: rest =>
    if toDays p.start_date ≤ toDays q.start_date then p :: q :: rest
    else q :: insertByStart p rest

/-- The `sort_values(["start_date"])` step. -/
def sortByStart : List PeriodRow → List PeriodRow
  | [] => []
  | p :: rest => insertByStart p (sortByStart rest)

/-- Embedding of `_build_events_for_customer`: sort the customer's periods
by start date, emit `new` for the first period, `churn` when it ends, then
walk consecutive pairs. -/
def build_events_for_customer (subs : List PeriodRow) : List EventRow :=
  match sortByStart subs with
  | [] => []
  | first :: rest =>
    [append_event first.cid first.start_date "new" none (some first.plan) first.price_mrr]
    ++ (match first.end_date with
        | some e => [append_event first.cid e "churn" (some first.plan) none (-first.price_mrr)]
        | none => [])
    ++ subsequent_events first rest

/-! ### Stage 4 — invoice generator (`04_invoices.py`) -/

/-- The columns of a subscription row that `04_invoices.py` reads. -/
structure SubRow where
  customer_id : String
  start_date : Date
  end_date : Option Date
  price_mrr : ℚ
deriving DecidableEq

/-- One row of the `invoices` sheet. -/
structure InvoiceRow where
  customer_id : String
  invoice_date : Date
  amount : ℚ
  is_refund : Bool
  period_start : Date
  period_end : Date
deriving DecidableEq

/-- `today.replace(day=1) - Day(1)`: the last day of the previous calendar
month, the billing cutoff. -/
def end_of_prev_month (today : Date) : Date := predD ⟨today.am, 1⟩

/-- Embedding of `_month_range`: the month starts covering
`[start, endd]`, inclusive, as absolute month indices. -/
def month_range (start endd : Date) : List ℕ :=
  (List.range (endd.am + 1 - start.am)).map (fun i => start.am + i)

/-- Embedding of `_coverage_window_for_month`. -/
def coverage_window_for_month (am : ℕ) : Date × Date :=
  (⟨am, 1⟩, predD (addMonths ⟨am, 1⟩ 1))

/-- Embedding of `_bounded`: `max(lo, min(a, hi))`. -/
def bounded (a lo hi : Date) : Date := dmax lo (dmin a hi)

/-- The per-subscription body of `04_invoices.py`'s main loop, with the
cadence draw (`rng.random() < pct_annual_prepay`) passed as `is_annual`. -/
def invoices_for_sub (today : Date) (is_annual : Bool) (s : SubRow) : List InvoiceRow :=
  let cutoff := end_of_prev_month today
  let start := s.start_date
  let rawEnd := match s.end_date with | some e => e | none => cutoff
  let endd := dmin rawEnd cutoff
  if toDays endd < toDays start then []
  else if is_annual then
    let coveredEnd := dmin (predD (addMonths start 12)) endd
    let monthsCovered : ℤ := max 1 ((coveredEnd.am : ℤ) - (start.am : ℤ) + 1)
    [{ customer_id := s.customer_id, invoice_date := start,
       amount := round2 (s.price_mrr * (monthsCovered : ℚ)), is_refund := false,
       period_start := start, period_end := coveredEnd }]
  else
    (month_range start endd).filterMap (fun m0 =>
      let cov := coverage_window_for_month m0
      let ps := bounded cov.1 start endd
      let pe := bounded cov.2 start endd
      if toDays pe < toDays ps then none
      else some { customer_id := s.customer_id, invoice_date := ps,
                  amount := round2 s.price_mrr, is_refund := false,
                  period_start := ps, period_end := pe })

/-- The refund pass: each selection `(idx, pct)` (a chosen invoice index
and the uniform refund fraction) appends a credit-memo row copying the
original's customer, dates and coverage window, with amount
`round(-(amount * pct), 2)` and the refund flag set. -/
def refund_rows (base : List InvoiceRow) (sel : List (ℕ × ℚ)) : List InvoiceRow :=
  sel.filterMap (fun ip =>
    (base.get? ip.1).map (fun r =>
      { customer_id := r.customer_id, invoice_date := r.invoice_date,
        amount := round2 (-(r.amount * ip.2)), is_refund := true,
        period_start := r.period_start, period_end := r.period_end }))

/-- The full invoice table of one run (before the final sort, which only
reorders rows): standard rows for every subscription, then refund rows. -/
def all_invoices (today : Date) (subs : List (SubRow × Bool))
    (sel : List (ℕ × ℚ)) : List InvoiceRow :=
  let base := (subs.map (fun sa => invoices_for_sub today sa.2 sa.1)).flatten
  base ++ refund_rows base sel

/-! ### Stage 5 — payment allocator (`05_payments.py`) -/

/-- The columns of an invoice row that `05_payments.py` reads. -/
structure InvLite where
  invoice_id : String
  invoice_date : Date
  amount : ℚ
deriving DecidableEq

/-- One row of the `payments` sheet. -/
structure PayRow where
  invoice_id : String
  payment_date : Date
  amount : ℚ
  payment_method : String
deriving DecidableEq

/-- Tuning knobs of `PaymentsConfig`, with the source defaults. -/
structure PayCfg where
  pct_fully_paid : ℚ := 85/100
  pct_partial_paid : ℚ := 0
  pct_unpaid : ℚ := 15/100
  lag_min_days : ℕ := 30
  lag_max_days : ℕ := 30
  pct_cash_refund_for_credit_memos : ℚ := 0

/-- The random draws one invoice consumes: the outcome uniform `r`, the
raw weight vector `rng.random(parts_n)` for a partial split, and the lag
and method draws of the i-th emitted payment.  (The partial-parts count
draw is the length of `raw_weights`, 2 or 3 in the source.) -/
structure PayDraws where
  r : ℚ
  raw_weights : List ℚ
  lagAt : ℕ → ℕ
  methodAt : ℕ → String

/-- The split of a positive invoice amount into payment parts: fully paid
yields one part holding the full amount; partial splits the amount by
normalized random weights, rounds each part to cents and folds the
rounding drift into the last part; unpaid yields no parts.  (The source
indexes `parts[-1]`, which presupposes a nonempty split — `raw_weights`
has length 2 or 3.) -/
def pay_parts (cfg : PayCfg) (amt : ℚ) (dr : PayDraws) : List ℚ :=
  if dr.r < cfg.pct_fully_paid then [amt]
  else if dr.r < cfg.pct_fully_paid + cfg.pct_partial_paid then
    let ws := dr.raw_weights.map (fun w => w / dr.raw_weights.sum)
    let ps := ws.map (fun w => round2 (amt * w))
    let drift := round2 (amt - ps.sum)
    ps.dropLast ++ [round2 (ps.getLastD 0 + drift)]
  else []

/-- Embedding of `_emit_payments_for_positive_invoice`: one payment per
part of `pay_parts`, each dated `invoice_date + lag` clamped to `today`,
with its own lag and method draws. -/
def emit_payments_for_positive_invoice (cfg : PayCfg) (inv : InvLite)
    (dr : PayDraws) (today : Date) : List PayRow :=
  ((pay_parts cfg inv.amount dr).enum).map (fun ip =>
    { invoice_id := inv.invoice_id
      payment_date := dmin (addDays inv.invoice_date (dr.lagAt ip.1)) today
      amount := round2 ip.2
      payment_method := dr.methodAt ip.1 })

/-- Embedding of `_emit_payments_for_negative_invoice`: with probability
`pct_cash_refund_for_credit_memos` one negative cash payment, same lag and
clamping rule; otherwise nothing. -/
def emit_payments_for_negative_invoice (cfg : PayCfg) (inv : InvLite)
    (dr : PayDraws) (today : Date) : List PayRow :=
  if dr.r < cfg.pct_cash_refund_for_credit_memos then
    [{ invoice_id := inv.invoice_id
       payment_date := dmin (addDays inv.invoice_date (dr.lagAt 0)) today
       amount := round2 inv.amount
       payment_method := dr.methodAt 0 }]
  else []

/-! ### Concrete values used by witnesses and counterexamples -/

/-- A concrete in-range draw vector for the period allocator. -/
def subsDrawsX : SubsDraws :=
  { delay1 := 0, months1 := 3, plan1 := "Starter", base1 := 20, noise1 := 0,
    act1 := 1/10, react := 99/100, gap := 15, months2 := 3, plan2 := "Pro",
    base2 := 50, noise2 := 0, act2 := 1/10 }

/-- A concrete in-range draw vector for the period allocator whose
reactivation uniform clears `pct_reactivate`. -/
def subsDrawsY : SubsDraws :=
  { delay1 := 0, months1 := 3, plan1 := "Starter", base1 := 20, noise1 := 0,
    act1 := 9/10, react := 1/10, gap := 15, months2 := 3, plan2 := "Pro",
    base2 := 50, noise2 := 0, act2 := 9/10 }

/-- A concrete draw vector for the payment allocator: fully-paid outcome,
lag 30 days (the configured minimum and maximum). -/
def payDrawsX : PayDraws :=
  { r := 0, raw_weights := [1, 1], lagAt := fun _ => 30, methodAt := fun _ => "ACH" }

/-! ### Rounding lemmas -/

theorem roundHalfEven_intCast (n : ℤ) : roundHalfEven (n : ℚ) = n := by
  unfold roundHalfEven
  simp only [Int.floor_intCast, sub_self]
  norm_num

theorem floor_le_roundHalfEven (x : ℚ) : Int.floor x ≤ roundHalfEven x := by
  unfold roundHalfEven
  split_ifs <;> omega

theorem isCents_round2 (x : ℚ) : IsCents (round2 x) := ⟨roundHalfEven (x * 100), rfl⟩

theorem round2_eq_self (h : IsCents x) : round2 x = x := by
  obtain ⟨n, rfl⟩ := h
  unfold round2
  have h100 : ((n : ℚ) / 100) * 100 = (n : ℚ) := by
    field_simp
  rw [h100, roundHalfEven_intCast]

theorem IsCents.add (hx : IsCents x) (hy : IsCents y) : IsCents (x + y) := by
  obtain ⟨a, rfl⟩ := hx
  obtain ⟨b, rfl⟩ := hy
  exact ⟨a + b, by push_cast; ring⟩

theorem IsCents.neg (hx : IsCents x) : IsCents (-x) := by
  obtain ⟨a, rfl⟩ := hx
  exact ⟨-a, by push_cast; ring⟩

theorem IsCents.sub (hx : IsCents x) (hy : IsCents y) : IsCents (x - y) := by
  rw [sub_eq_add_neg]
  exact hx.add hy.neg

theorem isCents_sum {l : List ℚ} (h : ∀ x ∈ l, IsCents x) : IsCents l.sum := by
  induction l with
  | nil => exact ⟨0, by norm_num⟩
  | cons a t ih =>
    rw [List.sum_cons]
    exact (h a (List.mem_cons_self a t)).add (ih fun x hx => h x (List.mem_cons_of_mem a hx))

theorem round2_ge_of_ge_five (h : (5 : ℚ) ≤ x) : (5 : ℚ) ≤ round2 x := by
  unfold round2
  have hf : (500 : ℤ) ≤ Int.floor (x * 100) := by
    rw [Int.le_floor]
    push_cast
    linarith
  have := floor_le_roundHalfEven (x * 100)
  have hr : (500 : ℤ) ≤ roundHalfEven (x * 100) := le_trans hf this
  have : (500 : ℚ) ≤ (roundHalfEven (x * 100) : ℚ) := by exact_mod_cast hr
  linarith

theorem sample_price_ge_five (base nf : ℚ) : (5 : ℚ) ≤ sample_price_mrr base nf :=
  round2_ge_of_ge_five (le_max_left _ _)

theorem isCents_sample_price (base nf : ℚ) : IsCents (sample_price_mrr base nf) :=
  isCents_round2 _

theorem round2_sample_price (base nf : ℚ) :
    round2 (sample_price_mrr base nf) = sample_price_mrr base nf :=
  round2_eq_self (isCents_sample_price base nf)

theorem round2_neg_sample_price (base nf : ℚ) :
    round2 (-sample_price_mrr base nf) = -sample_price_mrr base nf :=
  round2_eq_self (isCents_sample_price base nf).neg

/-! ### Calendar lemmas -/

theorem amLen_ge (am : ℕ) : 28 ≤ amLen am := by
  unfold amLen daysInMonthYM
  split_ifs <;> omega

theorem amLen_le (am : ℕ) : amLen am ≤ 31 := by
  unfold amLen daysInMonthYM
  split_ifs <;> omega

theorem monthStartDays_succ (n : ℕ) :
    monthStartDays (n + 1) = monthStartDays n + amLen n := rfl

theorem monthStartDays_add_ge (am k : ℕ) :
    monthStartDays am + 28 * k ≤ monthStartDays (am + k) := by
  induction k with
  | zero => simp
  | succ k ih =>
    have := amLen_ge (am + k)
    have h : monthStartDays (am + (k + 1)) = monthStartDays (am + k) + amLen (am + k) :=
      monthStartDays_succ (am + k)
    omega

theorem valid_mk (a b : ℕ) : (Date.mk a b).Valid ↔ 1 ≤ b ∧ b ≤ amLen a := Iff.rfl

theorem toDays_mk (a b : ℕ) : toDays (Date.mk a b) = monthStartDays a + (b - 1) := rfl

theorem Valid_addMonths {dt : Date} (hv : dt.Valid) (k : ℕ) : (addMonths dt k).Valid := by
  obtain ⟨am, d⟩ := dt
  obtain ⟨h1, h2⟩ := hv
  have := amLen_ge (am + k)
  rw [addMonths, valid_mk]
  dsimp only at *
  constructor <;> omega

theorem toDays_addMonths_ge {dt : Date} (hv : dt.Valid) {k : ℕ} (hk : 1 ≤ k) :
    toDays dt + 25 ≤ toDays (addMonths dt k) := by
  obtain ⟨am, d⟩ := dt
  obtain ⟨h1, h2⟩ := hv
  have hms := monthStartDays_add_ge am k
  have hl1 := amLen_ge (am + k)
  have hl2 := amLen_le am
  rw [addMonths, toDays_mk, toDays_mk]
  dsimp only at *
  rcases le_total d (amLen (am + k)) with hc | hc
  · rw [min_eq_left hc]; omega
  · rw [min_eq_right hc]; omega

theorem Valid_succD {dt : Date} (hv : dt.Valid) : (succD dt).Valid := by
  obtain ⟨am, d⟩ := dt
  obtain ⟨h1, h2⟩ := hv
  rw [succD]
  dsimp only at *
  split_ifs with h
  · rw [valid_mk]
    omega
  · rw [valid_mk]
    have := amLen_ge (am + 1)
    omega

theorem toDays_succD {dt : Date} (hv : dt.Valid) : toDays (succD dt) = toDays dt + 1 := by
  obtain ⟨am, d⟩ := dt
  obtain ⟨h1, h2⟩ := hv
  rw [succD]
  dsimp only at *
  split_ifs with h
  · rw [toDays_mk, toDays_mk]; omega
  · have he : d = amLen am := by omega
    rw [toDays_mk, toDays_mk, monthStartDays_succ]
    omega

theorem Valid_addDays {dt : Date} (hv : dt.Valid) (n : ℕ) : (addDays dt n).Valid := by
  induction n with
  | zero => exact hv
  | succ n ih => exact Valid_succD ih

theorem toDays_addDays {dt : Date} (hv : dt.Valid) (n : ℕ) :
    toDays (addDays dt n) = toDays dt + n := by
  induction n with
  | zero => rfl
  | succ n ih =>
    have := toDays_succD (Valid_addDays hv n)
    rw [addDays]
    omega

theorem Valid_predD {dt : Date} (hv : dt.Valid) : (predD dt).Valid := by
  obtain ⟨am, d⟩ := dt
  obtain ⟨h1, h2⟩ := hv
  rw [predD]
  dsimp only at *
  split_ifs with h
  · rw [valid_mk]
    omega
  · rw [valid_mk]
    have := amLen_ge (am - 1)
    omega

theorem toDays_predD {dt : Date} (hv : dt.Valid) (h1 : 1 ≤ toDays dt) :
    toDays (predD dt) + 1 = toDays dt := by
  obtain ⟨am, d⟩ := dt
  obtain ⟨hd1, hd2⟩ := hv
  rw [predD]
  rw [toDays_mk] at h1
  dsimp only at *
  split_ifs with h
  · rw [toDays_mk, toDays_mk]
    omega
  · have hd : d = 1 := by omega
    have ham : 1 ≤ am := by
      by_contra hc
      have hz : am = 0 := by omega
      rw [hz, hd] at h1
      simp [monthStartDays] at h1
    obtain ⟨a, ha⟩ : ∃ a, am = a + 1 := ⟨am - 1, by omega⟩
    subst ha
    have := amLen_ge a
    have hs := monthStartDays_succ a
    rw [toDays_mk, toDays_mk]
    rw [hd] at h1 ⊢
    simp only [Nat.add_sub_cancel]
    omega

theorem toDays_dmin (a b : Date) : toDays (dmin a b) = min (toDays a) (toDays b) := by
  unfold dmin
  split_ifs with h <;> omega

theorem toDays_dmax (a b : Date) : toDays (dmax a b) = max (toDays a) (toDays b) := by
  unfold dmax
  split_ifs with h <;> omega

/-- Computed period end: valid, and at least 24 days after the start. -/
theorem end_facts {dt : Date} (hv : dt.Valid) {m : ℕ} (hm : 1 ≤ m) :
    (predD (addMonths dt m)).Valid ∧ toDays dt + 24 ≤ toDays (predD (addMonths dt m)) := by
  have hvm := Valid_addMonths hv m
  have h25 := toDays_addMonths_ge hv hm
  have h1 : 1 ≤ toDays (addMonths dt m) := by omega
  have hp := toDays_predD hvm h1
  exact ⟨Valid_predD hvm, by omega⟩

/-! ### Structural lemmas about the period allocator -/

/-- Validity and strict ordering of the allocator's period endpoints:
`start1 < end1 < start2 < end2`. -/
theorem sub_dates {signup : Date} (dr : SubsDraws) (hv : signup.Valid)
    (hm1 : 1 ≤ dr.months1) (hm2 : 1 ≤ dr.months2) (hg : 1 ≤ dr.gap) :
    (sub_start1 signup dr).Valid ∧ (sub_end1 signup dr).Valid ∧
    (sub_start2 signup dr).Valid ∧ (sub_end2 signup dr).Valid ∧
    toDays (sub_start1 signup dr) < toDays (sub_end1 signup dr) ∧
    toDays (sub_end1 signup dr) < toDays (sub_start2 signup dr) ∧
    toDays (sub_start2 signup dr) < toDays (sub_end2 signup dr) := by
  have hv1 : (sub_start1 signup dr).Valid := Valid_addDays hv _
  have he1 := end_facts hv1 hm1
  rw [show predD (addMonths (sub_start1 signup dr) dr.months1) = sub_end1 signup dr from rfl] at he1
  have hv2 : (sub_start2 signup dr).Valid := Valid_addDays he1.1 _
  have he2 := end_facts hv2 hm2
  rw [show predD (addMonths (sub_start2 signup dr) dr.months2) = sub_end2 signup dr from rfl] at he2
  have ht2 : toDays (sub_start2 signup dr) = toDays (sub_end1 signup dr) + dr.gap :=
    toDays_addDays he1.1 _
  refine ⟨hv1, he1.1, hv2, he2.1, ?_, ?_, ?_⟩ <;> omega

/-- Case `still_active`: a single active period. -/
theorem gen_eq_singleA (cfg : SubsCfg) (cid : String) (signup : Date)
    (dr : SubsDraws) (today : Date)
    (hA : dr.act1 < 55/100 ∧ toDays today < toDays (sub_end1 signup dr)) :
    gen_periods_for_customer cfg cid signup dr today =
      [{ cid := cid, start_date := sub_start1 signup dr, end_date := none,
         plan := dr.plan1, price_mrr := sample_price_mrr dr.base1 dr.noise1,
         status := "active" }] := by
  simp [gen_periods_for_customer, hA.1, hA.2]

/-- Case canceled, no reactivation: a single canceled period. -/
theorem gen_eq_singleC (cfg : SubsCfg) (cid : String) (signup : Date)
    (dr : SubsDraws) (today : Date)
    (hA : ¬(dr.act1 < 55/100 ∧ toDays today < toDays (sub_end1 signup dr)))
    (hR : ¬ dr.react < cfg.pct_reactivate) :
    gen_periods_for_customer cfg cid signup dr today =
      [{ cid := cid, start_date := sub_start1 signup dr,
         end_date := some (sub_end1 signup dr),
         plan := dr.plan1, price_mrr := sample_price_mrr dr.base1 dr.noise1,
         status := "canceled" }] := by
  simp [gen_periods_for_customer, hA, hR]

/-- Case canceled with reactivation: the canceled first period and the
second period whose status still depends on its own draw and deadline. -/
theorem gen_eq_pair (cfg : SubsCfg) (cid : String) (signup : Date)
    (dr : SubsDraws) (today : Date)
    (hA : ¬(dr.act1 < 55/100 ∧ toDays today < toDays (sub_end1 signup dr)))
    (hR : dr.react < cfg.pct_reactivate) :
    gen_periods_for_customer cfg cid signup dr today =
      [{ cid := cid, start_date := sub_start1 signup dr,
         end_date := some (sub_end1 signup dr),
         plan := dr.plan1, price_mrr := sample_price_mrr dr.base1 dr.noise1,
         status := "canceled" },
       { cid := cid, start_date := sub_start2 signup dr,
         end_date := if dr.act2 < 65/100 ∧ toDays today < toDays (sub_end2 signup dr)
                     then none else some (sub_end2 signup dr),
         plan := dr.plan2, price_mrr := sample_price_mrr dr.base2 dr.noise2,
         status := if dr.act2 < 65/100 ∧ toDays today < toDays (sub_end2 signup dr)
                   then "active" else "canceled" }] := by
  simp [gen_periods_for_customer, hA, hR]

/-! ### Structural lemmas about the event deriver -/

theorem sortPair (r1 r2 : PeriodRow) (h : toDays r1.start_date ≤ toDays r2.start_date) :
    sortByStart [r1, r2] = [r1, r2] := by
  simp [sortByStart, insertByStart, h]

theorem events_singleton (r : PeriodRow) :
    build_events_for_customer [r] =
      [append_event r.cid r.start_date "new" none (some r.plan) r.price_mrr]
      ++ (match r.end_date with
          | some e => [append_event r.cid e "churn" (some r.plan) none (-r.price_mrr)]
          | none => []) := by
  simp [build_events_for_customer, sortByStart, insertByStart, subsequent_events]

theorem events_pairR (r1 r2 : PeriodRow) (e1 : Date) (hend : r1.end_date = some e1)
    (hs : toDays r1.start_date ≤ toDays r2.start_date)
    (hre : toDays e1 < toDays r2.start_date) :
    build_events_for_customer [r1, r2] =
      [append_event r1.cid r1.start_date "new" none (some r1.plan) r1.price_mrr,
       append_event r1.cid e1 "churn" (some r1.plan) none (-r1.price_mrr),
       append_event r2.cid r2.start_date "reactivation" none (some r2.plan) r2.price_mrr]
      ++ (match r2.end_date with
          | some e => [append_event r2.cid e "churn" (some r2.plan) none (-r2.price_mrr)]
          | none => []) := by
  rw [build_events_for_customer, sortPair r1 r2 hs]
  simp [hend, subsequent_events, hre]

/-! ### Claims -/

/-- C2: for every customer, the generated subscription periods are
temporally disjoint — the list comes out sorted by start date (strictly
increasing starts) and each subsequent period's start date is strictly
after the previous period's end date. -/
theorem C2_periods_disjoint (cfg : SubsCfg) (cid : String) (signup : Date)
    (dr : SubsDraws) (today : Date) (hv : signup.Valid) (hok : DrawsOK cfg dr)
    (hc1 : 1 ≤ cfg.min_months) (hc2 : 1 ≤ cfg.reactivation_gap_min) :
    List.Chain' (fun a b =>
        toDays a.start_date < toDays b.start_date ∧
        ∀ e, a.end_date = some e → toDays e < toDays b.start_date)
      (gen_periods_for_customer cfg cid signup dr today) := by
  obtain ⟨-, -, hm1, -, hm2, -, hg, -, -, -, -, -, -, -⟩ := hok
  obtain ⟨-, -, -, -, h12, h23, h34⟩ :=
    sub_dates dr hv (le_trans hc1 hm1) (le_trans hc1 hm2) (le_trans hc2 hg)
  by_cases hA : dr.act1 < 55/100 ∧ toDays today < toDays (sub_end1 signup dr)
  · rw [gen_eq_singleA cfg cid signup dr today hA]
    simp
  · by_cases hR : dr.react < cfg.pct_reactivate
    · rw [gen_eq_pair cfg cid signup dr today hA hR]
      simp only [List.chain'_cons, List.chain'_singleton, and_true]
      refine ⟨?_, ?_⟩
      · omega
      · intro e he
        injection he with he'
        subst he'
        omega
    · rw [gen_eq_singleC cfg cid signup dr today hA hR]
      simp

unseal Rat.mul Rat.inv Rat.add Rat.sub in
/-- C2 witness: the disjointness holds at a concrete signup, draw vector
and generation date. -/
theorem C2_periods_disjoint_witness :
    List.Chain' (fun a b =>
        toDays a.start_date < toDays b.start_date ∧
        ∀ e, a.end_date = some e → toDays e < toDays b.start_date)
      (gen_periods_for_customer {} "C0001" ⟨0, 10⟩ subsDrawsX ⟨0, 15⟩) :=
  C2_periods_disjoint {} "C0001" ⟨0, 10⟩ subsDrawsX ⟨0, 15⟩
    (by decide) (by decide) (by decide) (by decide)

unseal Rat.mul Rat.inv Rat.add Rat.sub in
/-- C9 counterexample: with identical configuration, inputs and random
draws (all draws within the documented ranges), running the period
allocator at two different generation dates produces different outputs, so
a stage is not a function of (seed, upstream tables, configuration)
alone. -/
theorem C9_counterexample :
    DrawsOK {} subsDrawsX ∧
    gen_periods_for_customer {} "C0001" ⟨0, 10⟩ subsDrawsX ⟨0, 15⟩ ≠
      gen_periods_for_customer {} "C0001" ⟨0, 10⟩ subsDrawsX ⟨48, 1⟩ := by
  refine ⟨by decide, by decide⟩

/-- C9 amended: each stage is deterministic as a function of (seed,
upstream inputs, configuration, generation date): runs that agree on the
configuration, customer inputs, random draws AND the generation-time
"today" produce identical outputs. -/
theorem C9_amended_deterministic (cfg₁ cfg₂ : SubsCfg) (cid₁ cid₂ : String)
    (s₁ s₂ : Date) (dr₁ dr₂ : SubsDraws) (t₁ t₂ : Date)
    (hcfg : cfg₁ = cfg₂) (hcid : cid₁ = cid₂) (hs : s₁ = s₂)
    (hdr : dr₁ = dr₂) (ht : t₁ = t₂) :
    gen_periods_for_customer cfg₁ cid₁ s₁ dr₁ t₁ =
      gen_periods_for_customer cfg₂ cid₂ s₂ dr₂ t₂ := by
  subst hcfg hcid hs hdr ht
  rfl

/-- C9 witness: determinism at a concrete input. -/
theorem C9_amended_deterministic_witness :
    gen_periods_for_customer {} "C0001" ⟨0, 10⟩ subsDrawsX ⟨0, 15⟩ =
      gen_periods_for_customer {} "C0001" ⟨0, 10⟩ subsDrawsX ⟨0, 15⟩ :=
  C9_amended_deterministic {} {} "C0001" "C0001" ⟨0, 10⟩ ⟨0, 10⟩
    subsDrawsX subsDrawsX ⟨0, 15⟩ ⟨0, 15⟩ rfl rfl rfl rfl rfl

/-- C5: a generated period is active (end date absent) iff the activity
draw clears its bias AND the computed end date `start + months − 1 day`
(`sub_end1`/`sub_end2`) is strictly after "today"; status is `"active"`
exactly when the end date is absent; when the period is not active its end
date is the computed end date — in particular a favorable draw with a
non-future computed end still yields a canceled period. -/
theorem C5_active_iff (cfg : SubsCfg) (cid : String) (signup : Date)
    (dr : SubsDraws) (today : Date) :
    (∀ p, (gen_periods_for_customer cfg cid signup dr today).get? 0 = some p →
      (p.status = "active" ↔ p.end_date = none) ∧
      (p.end_date = none ↔
        (dr.act1 < 55/100 ∧ toDays today < toDays (sub_end1 signup dr))) ∧
      (dr.act1 < 55/100 → ¬ toDays today < toDays (sub_end1 signup dr) →
        p.end_date = some (sub_end1 signup dr) ∧ p.status = "canceled") ∧
      (p.end_date ≠ none → p.end_date = some (sub_end1 signup dr))) ∧
    (∀ p, (gen_periods_for_customer cfg cid signup dr today).get? 1 = some p →
      (p.status = "active" ↔ p.end_date = none) ∧
      (p.end_date = none ↔
        (dr.act2 < 65/100 ∧ toDays today < toDays (sub_end2 signup dr))) ∧
      (dr.act2 < 65/100 → ¬ toDays today < toDays (sub_end2 signup dr) →
        p.end_date = some (sub_end2 signup dr) ∧ p.status = "canceled") ∧
      (p.end_date ≠ none → p.end_date = some (sub_end2 signup dr))) := by
  by_cases hA : dr.act1 < 55/100 ∧ toDays today < toDays (sub_end1 signup dr)
  · rw [gen_eq_singleA cfg cid signup dr today hA]
    constructor
    · intro p hp
      simp only [List.get?] at hp
      injection hp with hp
      subst hp
      refine ⟨by simp, by simpa using hA, fun h1 h2 => absurd hA.2 h2, by simp⟩
    · intro p hp
      simp [List.get?] at hp
  · by_cases hR : dr.react < cfg.pct_reactivate
    · rw [gen_eq_pair cfg cid signup dr today hA hR]
      constructor
      · intro p hp
        simp only [List.get?] at hp
        injection hp with hp
        subst hp
        refine ⟨by simp, by simpa using hA, fun h1 h2 => by simp, by simp⟩
      · intro p hp
        simp only [List.get?] at hp
        injection hp with hp
        subst hp
        by_cases hA2 : dr.act2 < 65/100 ∧ toDays today < toDays (sub_end2 signup dr)
        · refine ⟨?_, ?_, fun h1 h2 => absurd hA2.2 h2, ?_⟩ <;> simp [hA2.1, hA2.2]
        · refine ⟨?_, ?_, fun h1 h2 => ?_, ?_⟩ <;> simp [hA2]
    · rw [gen_eq_singleC cfg cid signup dr today hA hR]
      constructor
      · intro p hp
        simp only [List.get?] at hp
        injection hp with hp
        subst hp
        refine ⟨by simp, by simpa using hA, fun h1 h2 => by simp, by simp⟩
      · intro p hp
        simp [List.get?] at hp

unseal Rat.mul Rat.inv Rat.add Rat.sub in
/-- C5 witness: the characterization at a concrete input, where the draw
favors active and the computed end is in the future. -/
theorem C5_active_iff_witness :
    (({ cid := "C0001", start_date := ⟨0, 10⟩, end_date := none, plan := "Starter",
        price_mrr := 20, status := "active" } : PeriodRow).status = "active" ↔
      ({ cid := "C0001", start_date := ⟨0, 10⟩, end_date := none, plan := "Starter",
         price_mrr := 20, status := "active" } : PeriodRow).end_date = none) ∧
    (({ cid := "C0001", start_date := ⟨0, 10⟩, end_date := none, plan := "Starter",
        price_mrr := 20, status := "active" } : PeriodRow).end_date = none ↔
      (subsDrawsX.act1 < 55/100 ∧
        toDays (⟨0, 15⟩ : Date) < toDays (sub_end1 ⟨0, 10⟩ subsDrawsX))) ∧
    (subsDrawsX.act1 < 55/100 →
      ¬ toDays (⟨0, 15⟩ : Date) < toDays (sub_end1 ⟨0, 10⟩ subsDrawsX) →
      ({ cid := "C0001", start_date := ⟨0, 10⟩, end_date := none, plan := "Starter",
         price_mrr := 20, status := "active" } : PeriodRow).end_date =
          some (sub_end1 ⟨0, 10⟩ subsDrawsX) ∧
        ({ cid := "C0001", start_date := ⟨0, 10⟩, end_date := none, plan := "Starter",
           price_mrr := 20, status := "active" } : PeriodRow).status = "canceled") ∧
    (({ cid := "C0001", start_date := ⟨0, 10⟩, end_date := none, plan := "Starter",
        price_mrr := 20, status := "active" } : PeriodRow).end_date ≠ none →
      ({ cid := "C0001", start_date := ⟨0, 10⟩, end_date := none, plan := "Starter",
         price_mrr := 20, status := "active" } : PeriodRow).end_date =
        some (sub_end1 ⟨0, 10⟩ subsDrawsX)) :=
  (C5_active_iff {} "C0001" ⟨0, 10⟩ subsDrawsX ⟨0, 15⟩).1
    { cid := "C0001", start_date := ⟨0, 10⟩, end_date := none, plan := "Starter",
      price_mrr := 20, status := "active" } (by decide)

/-- C7: for every customer, the derived lifecycle event sequence is
strictly increasing by event date (hence no two events of the same
customer share a date). -/
theorem C7_events_strict_dates (cfg : SubsCfg) (cid : String) (signup : Date)
    (dr : SubsDraws) (today : Date) (hv : signup.Valid) (hok : DrawsOK cfg dr)
    (hc1 : 1 ≤ cfg.min_months) (hc2 : 1 ≤ cfg.reactivation_gap_min) :
    List.Pairwise (fun a b => toDays a.event_date < toDays b.event_date)
      (build_events_for_customer (gen_periods_for_customer cfg cid signup dr today)) := by
  obtain ⟨-, -, hm1, -, hm2, -, hg, -, -, -, -, -, -, -⟩ := hok
  obtain ⟨hv1, hve1, hv2, hve2, h12, h23, h34⟩ :=
    sub_dates dr hv (le_trans hc1 hm1) (le_trans hc1 hm2) (le_trans hc2 hg)
  by_cases hA : dr.act1 < 55/100 ∧ toDays today < toDays (sub_end1 signup dr)
  · rw [gen_eq_singleA cfg cid signup dr today hA, events_singleton]
    simp [append_event]
  · by_cases hR : dr.react < cfg.pct_reactivate
    · rw [gen_eq_pair cfg cid signup dr today hA hR,
        events_pairR _ _ _ rfl (le_of_lt (lt_trans h12 h23)) h23]
      by_cases hA2 : dr.act2 < 65/100 ∧ toDays today < toDays (sub_end2 signup dr)
      · simp only [if_pos hA2]
        simp [append_event, List.pairwise_cons]
        omega
      · simp only [if_neg hA2]
        simp [append_event, List.pairwise_cons]
        refine ⟨⟨h12, by omega, by omega⟩, ⟨by omega, by omega⟩, by omega⟩
    · rw [gen_eq_singleC cfg cid signup dr today hA hR, events_singleton]
      simp [append_event, List.pairwise_cons]
      exact h12

unseal Rat.mul Rat.inv Rat.add Rat.sub in
/-- C7 witness: strict chronology at a concrete input. -/
theorem C7_events_strict_dates_witness :
    List.Pairwise (fun a b => toDays a.event_date < toDays b.event_date)
      (build_events_for_customer
        (gen_periods_for_customer {} "C0001" ⟨0, 10⟩ subsDrawsY ⟨0, 15⟩)) :=
  C7_events_strict_dates {} "C0001" ⟨0, 10⟩ subsDrawsY ⟨0, 15⟩
    (by decide) (by decide) (by decide) (by decide)

/-- C1: for every customer, walking the derived lifecycle events in date
order (the derived sequence is emitted in strictly increasing date order),
every prefix of the running sum of `delta_mrr` stays at or above
`-1e-6`. -/
theorem C1_rolling_mrr_nonneg (cfg : SubsCfg) (cid : String) (signup : Date)
    (dr : SubsDraws) (today : Date) (hv : signup.Valid) (hok : DrawsOK cfg dr)
    (hc1 : 1 ≤ cfg.min_months) (hc2 : 1 ≤ cfg.reactivation_gap_min) :
    ∀ n : ℕ, -(1/1000000 : ℚ) ≤
      (((build_events_for_customer
          (gen_periods_for_customer cfg cid signup dr today)).take n).map
        EventRow.delta_mrr).sum := by
  obtain ⟨-, -, hm1, -, hm2, -, hg, -, -, -, -, -, -, -⟩ := hok
  obtain ⟨hv1, hve1, hv2, hve2, h12, h23, h34⟩ :=
    sub_dates dr hv (le_trans hc1 hm1) (le_trans hc1 hm2) (le_trans hc2 hg)
  have hp1 := sample_price_ge_five dr.base1 dr.noise1
  have hp2 := sample_price_ge_five dr.base2 dr.noise2
  intro n
  by_cases hA : dr.act1 < 55/100 ∧ toDays today < toDays (sub_end1 signup dr)
  · rw [gen_eq_singleA cfg cid signup dr today hA, events_singleton]
    rcases n with _ | _ | n <;>
      simp [append_event, List.take, round2_sample_price] <;> linarith
  · by_cases hR : dr.react < cfg.pct_reactivate
    · rw [gen_eq_pair cfg cid signup dr today hA hR,
        events_pairR _ _ _ rfl (le_of_lt (lt_trans h12 h23)) h23]
      by_cases hA2 : dr.act2 < 65/100 ∧ toDays today < toDays (sub_end2 signup dr)
      · simp only [if_pos hA2]
        rcases n with _ | _ | _ | _ | n <;>
          simp [append_event, List.take, round2_sample_price, round2_neg_sample_price] <;>
          linarith
      · simp only [if_neg hA2]
        rcases n with _ | _ | _ | _ | _ | n <;>
          simp [append_event, List.take, round2_sample_price, round2_neg_sample_price] <;>
          linarith
    · rw [gen_eq_singleC cfg cid signup dr today hA hR, events_singleton]
      rcases n with _ | _ | _ | n <;>
        (simp [append_event, List.take, round2_sample_price, round2_neg_sample_price]
         <;> linarith)

unseal Rat.mul Rat.inv Rat.add Rat.sub in
/-- C1 witness: the prefix bound at a concrete input and prefix length. -/
theorem C1_rolling_mrr_nonneg_witness :
    -(1/1000000 : ℚ) ≤
      (((build_events_for_customer
          (gen_periods_for_customer {} "C0001" ⟨0, 10⟩ subsDrawsY ⟨0, 15⟩)).take 2).map
        EventRow.delta_mrr).sum :=
  C1_rolling_mrr_nonneg {} "C0001" ⟨0, 10⟩ subsDrawsY ⟨0, 15⟩
    (by decide) (by decide) (by decide) (by decide) 2

/-- C10: the total `delta_mrr` over a customer's derived events equals the
last period's `price_mrr` when that period is active, and 0 when it is
canceled. -/
theorem C10_total_delta (cfg : SubsCfg) (cid : String) (signup : Date)
    (dr : SubsDraws) (today : Date) (hv : signup.Valid) (hok : DrawsOK cfg dr)
    (hc1 : 1 ≤ cfg.min_months) (hc2 : 1 ≤ cfg.reactivation_gap_min) :
    ∀ plast, (gen_periods_for_customer cfg cid signup dr today).getLast? = some plast →
      ((build_events_for_customer
          (gen_periods_for_customer cfg cid signup dr today)).map
        EventRow.delta_mrr).sum =
        (if plast.end_date = none then plast.price_mrr else 0) := by
  obtain ⟨-, -, hm1, -, hm2, -, hg, -, -, -, -, -, -, -⟩ := hok
  obtain ⟨hv1, hve1, hv2, hve2, h12, h23, h34⟩ :=
    sub_dates dr hv (le_trans hc1 hm1) (le_trans hc1 hm2) (le_trans hc2 hg)
  intro plast hlast
  by_cases hA : dr.act1 < 55/100 ∧ toDays today < toDays (sub_end1 signup dr)
  · rw [gen_eq_singleA cfg cid signup dr today hA] at hlast ⊢
    simp only [List.getLast?] at hlast
    injection hlast with hlast
    subst hlast
    rw [events_singleton]
    simp [append_event, round2_sample_price]
  · by_cases hR : dr.react < cfg.pct_reactivate
    · rw [gen_eq_pair cfg cid signup dr today hA hR] at hlast ⊢
      simp only [List.getLast?, List.getLast] at hlast
      injection hlast with hlast
      subst hlast
      rw [events_pairR _ _ _ rfl (le_of_lt (lt_trans h12 h23)) h23]
      by_cases hA2 : dr.act2 < 65/100 ∧ toDays today < toDays (sub_end2 signup dr)
      · simp only [if_pos hA2]
        simp [append_event, round2_sample_price, round2_neg_sample_price]
      · simp only [if_neg hA2]
        simp [append_event, round2_sample_price, round2_neg_sample_price]
    · rw [gen_eq_singleC cfg cid signup dr today hA hR] at hlast ⊢
      simp only [List.getLast?] at hlast
      injection hlast with hlast
      subst hlast
      rw [events_singleton]
      simp [append_event, round2_sample_price, round2_neg_sample_price]

unseal Rat.mul Rat.inv Rat.add Rat.sub in
/-- C10 witness: MRR conservation at a concrete input whose last period is
canceled. -/
theorem C10_total_delta_witness :
    ((build_events_for_customer
        (gen_periods_for_customer {} "C0001" ⟨0, 10⟩ subsDrawsY ⟨0, 15⟩)).map
      EventRow.delta_mrr).sum =
      (if ({ cid := "C0001", start_date := sub_start2 ⟨0, 10⟩ subsDrawsY,
             end_date := some (sub_end2 ⟨0, 10⟩ subsDrawsY), plan := "Pro",
             price_mrr := 50, status := "canceled" } : PeriodRow).end_date = none
       then ({ cid := "C0001", start_date := sub_start2 ⟨0, 10⟩ subsDrawsY,
               end_date := some (sub_end2 ⟨0, 10⟩ subsDrawsY), plan := "Pro",
               price_mrr := 50, status := "canceled" } : PeriodRow).price_mrr
       else 0) :=
  C10_total_delta {} "C0001" ⟨0, 10⟩ subsDrawsY ⟨0, 15⟩
    (by decide) (by decide) (by decide) (by decide)
    { cid := "C0001", start_date := sub_start2 ⟨0, 10⟩ subsDrawsY,
      end_date := some (sub_end2 ⟨0, 10⟩ subsDrawsY), plan := "Pro",
      price_mrr := 50, status := "canceled" } (by decide)

/-! ### Payment-stage lemmas -/

theorem map_snd_enumFrom {α β : Type} (g : α → β) :
    ∀ (k : ℕ) (l : List α), ((List.enumFrom k l).map (fun ip => g ip.2)) = l.map g
  | _, [] => rfl
  | k, a :: t => by
    simp only [List.enumFrom, List.map_cons, List.map]
    rw [map_snd_enumFrom g (k + 1) t]

theorem getLastD_mem : ∀ {l : List ℚ}, l ≠ [] → ∀ d, l.getLastD d ∈ l
  | [], h, _ => absurd rfl h
  | [a], _, d => by simp [List.getLastD]
  | a :: b :: t, _, d => by
    have ih := getLastD_mem (l := b :: t) (by simp) a
    simp only [List.getLastD] at ih ⊢
    exact List.mem_cons_of_mem a ih

theorem sum_dropLast_append : ∀ (l : List ℚ), l ≠ [] → ∀ x : ℚ,
    (l.dropLast ++ [x]).sum = l.sum - l.getLastD 0 + x
  | [], h, _ => absurd rfl h
  | [a], _, x => by simp [List.getLastD]
  | a :: b :: t, _, x => by
    have ih := sum_dropLast_append (b :: t) (by simp) x
    have h2 : (a :: b :: t).getLastD 0 = (b :: t).getLastD 0 := by
      rw [List.getLastD_cons, List.getLastD_cons, List.getLastD_cons]
    rw [List.dropLast_cons₂, List.cons_append, List.sum_cons, ih, h2]
    simp only [List.sum_cons]
    ring

theorem map_round2_cents : ∀ {l : List ℚ}, (∀ x ∈ l, IsCents x) → l.map round2 = l
  | [], _ => rfl
  | a :: t, h => by
    rw [List.map_cons, round2_eq_self (h a (List.mem_cons_self a t)),
      map_round2_cents (fun x hx => h x (List.mem_cons_of_mem a hx))]

theorem emit_pos_amounts (cfg : PayCfg) (inv : InvLite) (dr : PayDraws) (today : Date) :
    (emit_payments_for_positive_invoice cfg inv dr today).map PayRow.amount
      = (pay_parts cfg inv.amount dr).map round2 := by
  unfold emit_payments_for_positive_invoice List.enum
  rw [List.map_map]
  exact map_snd_enumFrom round2 0 (pay_parts cfg inv.amount dr)

/-- C3: for every positive invoice, the emitted payment amounts sum to at
most the invoice amount plus 0.01; the fully-paid outcome emits exactly one
payment of the amount, the partial-paid outcome's parts sum exactly to the
amount, and the unpaid outcome emits no payment. -/
theorem C3_no_overpayment (cfg : PayCfg) (inv : InvLite) (dr : PayDraws) (today : Date)
    (hpos : 0 < inv.amount) (hc : IsCents inv.amount) (hw : dr.raw_weights ≠ []) :
    ((emit_payments_for_positive_invoice cfg inv dr today).map PayRow.amount).sum
        ≤ inv.amount + 1/100 ∧
    (dr.r < cfg.pct_fully_paid →
      (emit_payments_for_positive_invoice cfg inv dr today).map PayRow.amount
        = [inv.amount]) ∧
    (¬ dr.r < cfg.pct_fully_paid → dr.r < cfg.pct_fully_paid + cfg.pct_partial_paid →
      ((emit_payments_for_positive_invoice cfg inv dr today).map PayRow.amount).sum
        = inv.amount) ∧
    (¬ dr.r < cfg.pct_fully_paid → ¬ dr.r < cfg.pct_fully_paid + cfg.pct_partial_paid →
      emit_payments_for_positive_invoice cfg inv dr today = []) := by
  rw [emit_pos_amounts]
  by_cases hF : dr.r < cfg.pct_fully_paid
  · have hparts : pay_parts cfg inv.amount dr = [inv.amount] := by
      simp [pay_parts, hF]
    rw [hparts]
    simp only [List.map_cons, List.map_nil, round2_eq_self hc, List.sum_cons, List.sum_nil]
    exact ⟨by linarith, fun _ => by simp, fun hnF _ => absurd hF hnF,
      fun hnF _ => absurd hF hnF⟩
  · by_cases hP : dr.r < cfg.pct_fully_paid + cfg.pct_partial_paid
    · have hps : ∀ x ∈ (dr.raw_weights.map (fun w => w / dr.raw_weights.sum)).map
          (fun w => round2 (inv.amount * w)), IsCents x := by
        intro x hx
        obtain ⟨w, -, rfl⟩ := List.mem_map.mp hx
        exact isCents_round2 _
      have hpsne : (dr.raw_weights.map (fun w => w / dr.raw_weights.sum)).map
          (fun w => round2 (inv.amount * w)) ≠ [] := by
        simp [hw]
      set ps := (dr.raw_weights.map (fun w => w / dr.raw_weights.sum)).map
        (fun w => round2 (inv.amount * w)) with hps_def
      have hS : IsCents ps.sum := isCents_sum hps
      have hlastc : IsCents (ps.getLastD 0) := hps _ (getLastD_mem hpsne 0)
      have hdrift : round2 (inv.amount - ps.sum) = inv.amount - ps.sum :=
        round2_eq_self (hc.sub hS)
      have hparts : pay_parts cfg inv.amount dr
          = ps.dropLast ++ [round2 (ps.getLastD 0 + round2 (inv.amount - ps.sum))] := by
        simp only [pay_parts, if_neg hF, if_pos hP]
      have hlast' : round2 (ps.getLastD 0 + round2 (inv.amount - ps.sum))
          = ps.getLastD 0 + (inv.amount - ps.sum) := by
        rw [hdrift]
        exact round2_eq_self (hlastc.add (hc.sub hS))
      have hcents_parts : ∀ x ∈ pay_parts cfg inv.amount dr, IsCents x := by
        intro x hx
        rw [hparts] at hx
        rcases List.mem_append.mp hx with h | h
        · exact hps _ (List.dropLast_subset _ h)
        · rw [List.mem_singleton.mp h]
          exact isCents_round2 _
      have hsum : ((pay_parts cfg inv.amount dr).map round2).sum = inv.amount := by
        rw [map_round2_cents hcents_parts, hparts,
          sum_dropLast_append ps hpsne, hlast']
        ring
      refine ⟨by rw [hsum]; linarith, fun hF' => absurd hF' hF, fun _ _ => hsum,
        fun _ hnP => absurd hP hnP⟩
    · have hparts : pay_parts cfg inv.amount dr = [] := by
        simp [pay_parts, hF, hP]
      rw [hparts]
      refine ⟨by simp; linarith, fun hF' => absurd hF' hF, fun _ hP' => absurd hP' hP,
        fun _ _ => ?_⟩
      simp [emit_payments_for_positive_invoice, hparts]

unseal Rat.mul Rat.inv Rat.add Rat.sub in
/-- C3 witness: a concrete fully-paid invoice of 100.00. -/
theorem C3_no_overpayment_witness :
    ((emit_payments_for_positive_invoice {} ⟨"I000001", ⟨0, 1⟩, 100⟩ payDrawsX
        ⟨0, 10⟩).map PayRow.amount).sum ≤ (100 : ℚ) + 1/100 ∧
    (payDrawsX.r < ({} : PayCfg).pct_fully_paid →
      (emit_payments_for_positive_invoice {} ⟨"I000001", ⟨0, 1⟩, 100⟩ payDrawsX
        ⟨0, 10⟩).map PayRow.amount = [(100 : ℚ)]) ∧
    (¬ payDrawsX.r < ({} : PayCfg).pct_fully_paid →
      payDrawsX.r < ({} : PayCfg).pct_fully_paid + ({} : PayCfg).pct_partial_paid →
      ((emit_payments_for_positive_invoice {} ⟨"I000001", ⟨0, 1⟩, 100⟩ payDrawsX
        ⟨0, 10⟩).map PayRow.amount).sum = 100) ∧
    (¬ payDrawsX.r < ({} : PayCfg).pct_fully_paid →
      ¬ payDrawsX.r < ({} : PayCfg).pct_fully_paid + ({} : PayCfg).pct_partial_paid →
      emit_payments_for_positive_invoice {} ⟨"I000001", ⟨0, 1⟩, 100⟩ payDrawsX
        ⟨0, 10⟩ = []) :=
  C3_no_overpayment {} ⟨"I000001", ⟨0, 1⟩, 100⟩ payDrawsX ⟨0, 10⟩
    (by decide) ⟨10000, by norm_num⟩ (by decide)

unseal Rat.mul Rat.inv Rat.add Rat.sub in
set_option maxRecDepth 4000 in
/-- C4 counterexample: with the default configuration (minimum lag 30) a
payment against an invoice issued 9 days before "today" is clamped to
"today" (day 9), strictly before issue date + `lag_min_days` (day 30),
even though the sampled lag is within the configured range — so the claim
"payment date is never before issue + lag_min" is false on the code. -/
theorem C4_counterexample :
    (emit_payments_for_positive_invoice {} ⟨"I000001", ⟨0, 1⟩, 100⟩ payDrawsX
        ⟨0, 10⟩).map (fun p => toDays p.payment_date) = [9] ∧
    (9 : ℕ) < toDays (⟨0, 1⟩ : Date) + ({} : PayCfg).lag_min_days ∧
    ({} : PayCfg).lag_min_days ≤ payDrawsX.lagAt 0 ∧
    payDrawsX.lagAt 0 ≤ ({} : PayCfg).lag_max_days ∧
    toDays (⟨0, 1⟩ : Date) ≤ toDays (⟨0, 10⟩ : Date) := by
  decide

/-- C4 amended: every emitted payment (for positive and negative invoices
alike) is dated no later than "today", and no earlier than
`min(invoice issue date + lag_min_days, today)` — the configured minimum
lag holds except when it would push the date past "today", in which case
the payment is dated "today". -/
theorem C4_amended_payment_dates (cfg : PayCfg) (inv : InvLite) (dr : PayDraws)
    (today : Date) (hv : inv.invoice_date.Valid)
    (hlag : ∀ i, cfg.lag_min_days ≤ dr.lagAt i) :
    ∀ p ∈ emit_payments_for_positive_invoice cfg inv dr today
        ++ emit_payments_for_negative_invoice cfg inv dr today,
      toDays p.payment_date ≤ toDays today ∧
      min (toDays inv.invoice_date + cfg.lag_min_days) (toDays today)
        ≤ toDays p.payment_date := by
  intro p hp
  rcases List.mem_append.mp hp with h | h
  · unfold emit_payments_for_positive_invoice at h
    obtain ⟨ip, hmem, rfl⟩ := List.mem_map.mp h
    dsimp only
    rw [toDays_dmin, toDays_addDays hv]
    have := hlag ip.1
    exact ⟨min_le_right _ _, by omega⟩
  · unfold emit_payments_for_negative_invoice at h
    split_ifs at h with hr
    · rw [List.mem_singleton] at h
      subst h
      dsimp only
      rw [toDays_dmin, toDays_addDays hv]
      have := hlag 0
      exact ⟨min_le_right _ _, by omega⟩
    · simp at h

unseal Rat.mul Rat.inv Rat.add Rat.sub in
set_option maxRecDepth 4000 in
/-- C4 amended witness: the bounds at a concrete payment. -/
theorem C4_amended_payment_dates_witness :
    toDays ({ invoice_id := "I000001", payment_date := ⟨0, 10⟩, amount := 100,
              payment_method := "ACH" } : PayRow).payment_date
        ≤ toDays (⟨0, 10⟩ : Date) ∧
    min (toDays (⟨0, 1⟩ : Date) + ({} : PayCfg).lag_min_days) (toDays (⟨0, 10⟩ : Date))
      ≤ toDays ({ invoice_id := "I000001", payment_date := ⟨0, 10⟩, amount := 100,
                  payment_method := "ACH" } : PayRow).payment_date :=
  C4_amended_payment_dates {} ⟨"I000001", ⟨0, 1⟩, 100⟩ payDrawsX ⟨0, 10⟩
    (by decide) (fun _ => le_refl 30)
    { invoice_id := "I000001", payment_date := ⟨0, 10⟩, amount := 100,
      payment_method := "ACH" } (by decide)

/-! ### Invoice-stage lemmas -/

/-- Every invoice a single subscription period generates is dated, and
covers, at most the billing cutoff (end of the previous calendar month). -/
theorem invoices_for_sub_bounds (today : Date) (ann : Bool) (s : SubRow) :
    ∀ row ∈ invoices_for_sub today ann s,
      toDays row.invoice_date ≤ toDays (end_of_prev_month today) ∧
      toDays row.period_end ≤ toDays (end_of_prev_month today) := by
  intro row hrow
  simp only [invoices_for_sub] at hrow
  split_ifs at hrow with hskip hann
  · exact absurd hrow (List.not_mem_nil _)
  · rw [List.mem_singleton] at hrow
    subst hrow
    dsimp only
    have hdm := toDays_dmin (match s.end_date with | some e => e | none => end_of_prev_month today)
      (end_of_prev_month today)
    have hdm2 := toDays_dmin (predD (addMonths s.start_date 12))
      (dmin (match s.end_date with | some e => e | none => end_of_prev_month today)
        (end_of_prev_month today))
    omega
  · obtain ⟨m0, hm0, hf⟩ := List.mem_filterMap.mp hrow
    split_ifs at hf with hpe
    injection hf with hf
    subst hf
    dsimp only
    have hdm := toDays_dmin (match s.end_date with | some e => e | none => end_of_prev_month today)
      (end_of_prev_month today)
    have hb1 := toDays_dmax s.start_date
      (dmin (coverage_window_for_month m0).1
        (dmin (match s.end_date with | some e => e | none => end_of_prev_month today)
          (end_of_prev_month today)))
    have hb2 := toDays_dmax s.start_date
      (dmin (coverage_window_for_month m0).2
        (dmin (match s.end_date with | some e => e | none => end_of_prev_month today)
          (end_of_prev_month today)))
    have hc1 := toDays_dmin (coverage_window_for_month m0).1
      (dmin (match s.end_date with | some e => e | none => end_of_prev_month today)
        (end_of_prev_month today))
    have hc2 := toDays_dmin (coverage_window_for_month m0).2
      (dmin (match s.end_date with | some e => e | none => end_of_prev_month today)
        (end_of_prev_month today))
    unfold bounded
    omega

/-- C6: every generated invoice row — standard or refund — has its issue
date and its coverage end no later than the last day of the calendar month
preceding generation time; and a period whose billable window is empty
(start after that cutoff) produces no invoices at all. -/
theorem C6_invoices_bounded (today : Date) (subs : List (SubRow × Bool))
    (sel : List (ℕ × ℚ)) :
    (∀ row ∈ all_invoices today subs sel,
        toDays row.invoice_date ≤ toDays (end_of_prev_month today) ∧
        toDays row.period_end ≤ toDays (end_of_prev_month today)) ∧
    (∀ (s : SubRow) (ann : Bool),
        toDays (end_of_prev_month today) < toDays s.start_date →
        invoices_for_sub today ann s = []) := by
  constructor
  · have hbase : ∀ row ∈ (subs.map (fun sa => invoices_for_sub today sa.2 sa.1)).flatten,
        toDays row.invoice_date ≤ toDays (end_of_prev_month today) ∧
        toDays row.period_end ≤ toDays (end_of_prev_month today) := by
      intro row hrow
      rw [List.mem_flatten] at hrow
      obtain ⟨l, hl, hrl⟩ := hrow
      obtain ⟨sa, -, rfl⟩ := List.mem_map.mp hl
      exact invoices_for_sub_bounds today sa.2 sa.1 row hrl
    intro row hrow
    rw [all_invoices] at hrow
    rcases List.mem_append.mp hrow with h | h
    · exact hbase row h
    · unfold refund_rows at h
      obtain ⟨ip, -, hf⟩ := List.mem_filterMap.mp h
      cases hg : ((subs.map (fun sa => invoices_for_sub today sa.2 sa.1)).flatten).get? ip.1 with
      | none =>
        rw [hg] at hf
        simp at hf
      | some r =>
        rw [hg] at hf
        simp only [Option.map] at hf
        injection hf with hf
        subst hf
        exact hbase r (List.get?_mem hg)
  · intro s ann hafter
    simp only [invoices_for_sub]
    rw [if_pos]
    have hdm := toDays_dmin (match s.end_date with | some e => e | none => end_of_prev_month today)
      (end_of_prev_month today)
    omega

/-- C6 witness: a concrete period starting after the cutoff produces no
invoices. -/
theorem C6_invoices_bounded_witness :
    invoices_for_sub ⟨1, 10⟩ true ⟨"C0001", ⟨2, 5⟩, none, 20⟩ = [] :=
  (C6_invoices_bounded ⟨1, 10⟩ [] []).2 ⟨"C0001", ⟨2, 5⟩, none, 20⟩ true (by decide)

/-! ### Weight-mix lemmas -/

theorem sum_map_div (l : List ℚ) (s : ℚ) : (l.map (fun w => w / s)).sum = l.sum / s := by
  induction l with
  | nil => simp
  | cons a t ih => simp [ih, add_div]

theorem sum_neg_of_all_neg : ∀ (l : List ℚ), l ≠ [] → (∀ w ∈ l, w < 0) → l.sum < 0
  | [], h, _ => absurd rfl h
  | [a], _, h => by simpa using h a (by simp)
  | a :: b :: t, _, h => by
    have ih := sum_neg_of_all_neg (b :: t) (by simp)
      (fun w hw => h w (List.mem_cons_of_mem a hw))
    have ha := h a (List.mem_cons_self a (b :: t))
    rw [List.sum_cons]
    linarith

unseal Rat.mul Rat.inv Rat.add Rat.sub in
/-- C8 counterexample: the mix `{"A": -1, "B": -1}` has a non-positive
(negative) weight sum, yet `_choice_with_mix` does not reject it — the
normalization `probs / probs.sum()` turns it into the valid probability
vector `[1/2, 1/2]` and sampling proceeds, returning a label. -/
theorem C8_counterexample :
    (([(-1 : ℚ), -1]).sum ≤ 0) ∧
    choice_with_mix ["A", "B"] [(-1 : ℚ), -1] 0 = some "A" := by
  exact ⟨by decide, by decide⟩

/-- C8 amended: the customer generator performs no weight-sum validation:
weights are divided by their sum, so a mix whose weights are all negative
(hence whose sum is non-positive) normalizes to a valid probability vector
and sampling proceeds, returning a label; only a mix whose normalized
vector fails numpy's probability validation (for example a zero-sum mix)
raises, and it does so inside the sampling call, not as a prior
configuration check. -/
theorem C8_amended_no_rejection (labels : List String) (ws : List ℚ) (pick : ℕ)
    (hl : labels ≠ []) (hne : ws ≠ []) (hneg : ∀ w ∈ ws, w < 0) :
    ws.sum < 0 ∧ ∃ l, choice_with_mix labels ws pick = some l := by
  have hs := sum_neg_of_all_neg ws hne hneg
  refine ⟨hs, ?_⟩
  have hvalid1 : ∀ p ∈ ws.map (fun w => w / ws.sum), 0 ≤ p := by
    intro p hp
    obtain ⟨w, hw, rfl⟩ := List.mem_map.mp hp
    exact le_of_lt (div_pos_of_neg_of_neg (hneg w hw) hs)
  have hvalid2 : (ws.map (fun w => w / ws.sum)).sum = 1 := by
    rw [sum_map_div]
    exact div_self (ne_of_lt hs)
  unfold choice_with_mix
  rw [if_pos ⟨hvalid1, hvalid2⟩]
  have hlen : pick % labels.length < labels.length :=
    Nat.mod_lt _ (List.length_pos.mpr hl)
  exact ⟨labels.get ⟨pick % labels.length, hlen⟩, List.get?_eq_get hlen⟩

unseal Rat.mul Rat.inv Rat.add Rat.sub in
/-- C8 amended witness: the all-negative mix at concrete values. -/
theorem C8_amended_no_rejection_witness :
    (([(-1 : ℚ), -1]).sum < 0) ∧
    ∃ l, choice_with_mix ["A", "B"] [(-1 : ℚ), -1] 0 = some l :=
  C8_amended_no_rejection ["A", "B"] [(-1 : ℚ), -1] 0
    (by decide) (by decide) (by decide)

end SaaSKPI
